import Mathlib

/-!
Shallow embedding of `src/Publisher.js` (dubit/airflux): a publish/subscribe
node with a preEmit/shouldEmit hook pipeline, per-cycle tracking of promises
returned by listeners, and a resolution step forwarding an aggregated outcome
to the "completed" and "failed" child publishers.

Promises are modelled denotationally as already-determined settlements: a
settlement time stamp (abstract order of settlement) together with a fulfilled
or rejected outcome.  The utilities module `./utils` is imported by the source
but absent from the repository snapshot, so the classification predicates and
the event-bus semantics it provides are modelled from the spec where noted.
-/

namespace Airflux

/-- JavaScript-style runtime values, as far as Publisher.js observes them:
`undef` is `undefined`, `fn id` a function value identified by `id`,
`pubRef` the owning Publisher object (used as a `this`-binding),
`arr` an array / arguments sequence, `lv listener value` the
`\x7blistener, value\x7d` object built in `_handleDispatchPromises`, and
`promise time ok val` a deferred result that settles at abstract time `time`,
fulfilled with `val` when `ok` is true and rejected with reason `val`
otherwise. -/
inductive JsVal where
  | undef
  | num (n : Int)
  | str (s : String)
  | boolean (b : Bool)
  | fn (id : Nat)
  | pubRef
  | arr (xs : List JsVal)
  | lv (listener : Nat) (value : JsVal)
  | promise (time : Nat) (ok : Bool) (val : JsVal)

/-- Modelled from the spec: the external classification utility
`isDeferredResult` (`_.isPromise` in the source), true exactly on deferred
results. -/
def isPromise : JsVal → Bool
  | .promise _ _ _ => true
  | _ => false

/-- Modelled from the spec: `typeof x !== 'undefined'` is false exactly on the
undefined value. -/
def isUndef : JsVal → Bool
  | .undef => true
  | _ => false

/-- Modelled from the spec: the external classification utility
`isOrderedArgumentSequence` (`_.isArguments` in the source), true on
array-like ordered sequences. -/
def isArguments : JsVal → Bool
  | .arr _ => true
  | _ => false

/-- The element list of an array-like value used as an argument sequence
as-is (`args = preResult` when `_.isArguments(preResult)`). -/
def argElems : JsVal → List JsVal
  | .arr xs => xs
  | v => [v]

/-- `[].concat(v)`: concatenation spreads an array into its elements and
wraps any other value into a one-element sequence. -/
def jsConcat : JsVal → List JsVal
  | .arr xs => xs
  | v => [v]

/-- Settlement time of a promise value (0 on non-promises, which are only fed
to this accessor under a promise-classification guard). -/
def promTime : JsVal → Nat
  | .promise t _ _ => t
  | _ => 0

/-- Settled value of a promise value (identity on non-promises, which are only
fed to this accessor under a promise-classification guard). -/
def promVal : JsVal → JsVal
  | .promise _ _ v => v
  | v => v

/-- `item.promise.then(result => (\x7blistener: item.listener, value: result\x7d))`:
mapping the fulfillment value into a `\x7blistener, value\x7d` object; a
rejection passes through unchanged.  Only promise-classified values reach this
in the source; the catch-all keeps the function total. -/
def thenLV (listener : Nat) : JsVal → JsVal
  | .promise t true v => .promise t true (.lv listener v)
  | .promise t false e => .promise t false e
  | v => v

/-- Combines a rejection settling at `t` with reason `e` with the earliest
rejection found so far, keeping the one that settles first (the earlier
position winning ties). -/
def firstRejStep (t : Nat) (e : JsVal) : Option (Nat × JsVal) → Option (Nat × JsVal)
  | some (t2, e2) => if t2 < t then some (t2, e2) else some (t, e)
  | none => some (t, e)

/-- The rejection among `ps` that settles first (smallest time stamp, earlier
position winning ties), if any: the rejection that `Promise.all` adopts. -/
def firstRej : List JsVal → Option (Nat × JsVal)
  | [] => none
  | .promise t false e :: ps => firstRejStep t e (firstRej ps)
  | _ :: ps => firstRej ps

/-- Largest settlement time among `ps`: the time at which `Promise.all`
fulfills when every member fulfills. -/
def maxTime (ps : List JsVal) : Nat :=
  ps.foldr (fun p a => max (promTime p) a) 0

/-- `Promise.all(ps)`: fulfills with the list of fulfillment values, in list
order, once every member has settled; rejects with the first rejection to
occur otherwise. -/
def promiseAll (ps : List JsVal) : JsVal :=
  match firstRej ps with
  | some (t, e) => .promise t false e
  | none => .promise (maxTime ps) true (.arr (ps.map promVal))

/-- A triggering of one of the two child publishers with a value. -/
inductive ChildTrigger where
  | completed (v : JsVal)
  | failed (e : JsVal)

/-- A child-publisher triggering together with the abstract time at which it
happens (0 for a synchronous triggering). -/
structure Eventual where
  time : Nat
  trig : ChildTrigger

/-- `resolve(promise)` from Publisher.js: a non-promise input triggers the
"completed" child synchronously and returns undefined; a promise input gets
success and failure continuations attached, triggering "completed" with the
settled value or "failed" with the rejection reason at settlement time, and
the attached continuation chain (a promise fulfilling with the continuation
result, modelled as undefined since the child trigger entry point is external)
is returned to the caller. -/
def resolve (v : JsVal) : Eventual × JsVal :=
  match v with
  | .promise t true x => (⟨t, .completed x⟩, .promise t true .undef)
  | .promise t false e => (⟨t, .failed e⟩, .promise t true .undef)
  | x => (⟨0, .completed x⟩, .undef)

/-- One entry of `_dispatchPromises`: the promise a listener returned, paired
with the listener identity (`\x7bpromise: result, listener: callback\x7d`). -/
structure DispatchRecord where
  promise : JsVal
  listener : Nat

/-- The pure core of `_handleDispatchPromises`, acting on the snapshot of the
record list it read: zero records do nothing; one record forwards its promise
directly to `resolve`; two or more records map each promise into a
`\x7blistener, value\x7d` object, join the mapped promises with `Promise.all`
and forward the joined promise to `resolve`.  Returns the eventual child
triggering (if any) together with the JavaScript return value. -/
def handleDispatchPromises (rs : List DispatchRecord) : Option Eventual × JsVal :=
  match rs with
  | [] => (none, .undef)
  | [r] =>
    let z := resolve r.promise
    (some z.1, z.2)
  | _ =>
    let mapped := rs.map (fun r => thenLV r.listener r.promise)
    let z := resolve (promiseAll mapped)
    (some z.1, z.2)

/-- Modelled from the spec: JavaScript truthiness, used by the
`bindContext = bindContext || this` default in `listenOnce`. -/
def jsTruthy : JsVal → Bool
  | .undef => false
  | .boolean b => b
  | .num n => n != 0
  | .str s => s != ""
  | _ => true

/-- The shape of the event handler a subscription registered on the bus:
`plain cb` is the wrapper `listen` builds around callback `cb`; `once cb
savedArgs ctx` is the wrapper `listen` builds around the anonymous arrow
function created by `listenOnce`, which captured `savedArgs` (the slice of the
enclosing `listenOnce` call arguments, since `arguments` inside an arrow
function is the enclosing function one) and the bind context `ctx`. -/
inductive HandlerKind where
  | plain (cb : Nat)
  | once (cb : Nat) (savedArgs : List JsVal) (ctx : JsVal)

/-- One subscription: the handler identity used by `removeListener`, the
`aborted` closure flag set by the unsubscribe function, and the handler
shape. -/
structure Subscription where
  hid : Nat
  aborted : Bool
  kind : HandlerKind

/-- The mutable state of one Publisher: the `_dispatchPromises` list of the
current cycle, the closure state of every subscription ever created, the
ordered list of handler identities currently registered on the event bus, and
a fresh-identity counter. -/
structure PubState where
  dispatchPromises : List DispatchRecord
  subs : List Subscription
  bus : List Nat
  nextId : Nat

/-- The fresh Publisher state built by the constructor. -/
def initState : PubState := ⟨[], [], [], 0⟩

/-- The overridable hooks and capability of a concrete Publisher, together
with the behaviour of the registered callbacks: `cbs cb args` is the value
callback `cb` returns when invoked with `args`. -/
structure PubConfig where
  preEmit : List JsVal → JsVal
  shouldEmit : List JsVal → Bool
  canHandlePromise : Bool
  cbs : Nat → List JsVal → JsVal

/-- `listen(callback)`: registers a fresh non-aborted wrapper around `cb` on
the bus and returns the handler identity the unsubscribe function closes
over. -/
def listen (s : PubState) (cb : Nat) : PubState × Nat :=
  ({ s with
      subs := s.subs ++ [⟨s.nextId, false, .plain cb⟩],
      bus := s.bus ++ [s.nextId],
      nextId := s.nextId + 1 }, s.nextId)

/-- The unsubscribe function returned by `listen`: sets the `aborted` closure
flag of subscription `hid` and removes its handler from the bus (handler
identities are unique, so removing every occurrence matches removing the
one registration).  Idempotent. -/
def unsubscribe (s : PubState) (hid : Nat) : PubState :=
  { s with
      subs := s.subs.map (fun sub =>
        if sub.hid = hid then { sub with aborted := true } else sub),
      bus := s.bus.filter (fun h => h != hid) }

/-- `listenOnce(callback, bindContext)`: computes `bindContext || this`,
registers via `listen` an arrow-function wrapper that captured the enclosing
call arguments (`[callback] ++ bindContext?`, the `arguments` object of
`listenOnce` itself) and the bind context, and returns the handler
identity. -/
def listenOnce (s : PubState) (cb : Nat) (ctxArg : Option JsVal) : PubState × Nat :=
  let bindContext : JsVal :=
    match ctxArg with
    | some c => if jsTruthy c then c else .pubRef
    | none => .pubRef
  let savedArgs : List JsVal := .fn cb :: ctxArg.toList
  ({ s with
      subs := s.subs ++ [⟨s.nextId, false, .once cb savedArgs bindContext⟩],
      bus := s.bus ++ [s.nextId],
      nextId := s.nextId + 1 }, s.nextId)

/-- One observed callback invocation during fan-out: the subscription it came
from, the callback invoked, the `this`-binding it was applied with, and the
argument list it received. -/
structure Invocation where
  hid : Nat
  cb : Nat
  ctx : JsVal
  args : List JsVal

/-- The observable effects of one fan-out: callback invocations in order, and
the number of `console.warn` diagnostics emitted. -/
structure FanLog where
  invocations : List Invocation
  warnings : Nat

/-- The promise-tracking tail of the `listen` event handler: a
promise-classified result is pushed onto `_dispatchPromises` as a
`\x7bpromise, listener\x7d` record when `canHandlePromise` holds, and is
discarded with one warning otherwise; a non-promise result is discarded
silently. -/
def trackResult (cfg : PubConfig) (s : PubState) (w : Nat) (listener : Nat)
    (result : JsVal) : PubState × Nat :=
  if isPromise result then
    if cfg.canHandlePromise then
      ({ s with dispatchPromises := s.dispatchPromises ++ [⟨result, listener⟩] }, w)
    else (s, w + 1)
  else (s, w)

/-- Looks up the closure state of subscription `hid`. -/
def findSub (subs : List Subscription) (hid : Nat) : Option Subscription :=
  subs.find? (fun sub => sub.hid = hid)

/-- Runs the event handler of subscription `hid` with `args`: returns
immediately when the `aborted` flag is set; otherwise a `plain` wrapper
applies the callback with the Publisher as `this` and tracks the result,
while a `once` wrapper first unsubscribes itself and then applies the inner
callback with its captured bind context and captured argument slice, tracking
the result under the wrapper identity. -/
def runHandler (cfg : PubConfig) (hid : Nat) (args : List JsVal)
    (s : PubState) (log : FanLog) : PubState × FanLog :=
  match findSub s.subs hid with
  | none => (s, log)
  | some sub =>
    if sub.aborted then (s, log)
    else
      match sub.kind with
      | .plain cb =>
        let result := cfg.cbs cb args
        let z := trackResult cfg s log.warnings cb result
        (z.1, ⟨log.invocations ++ [⟨hid, cb, .pubRef, args⟩], z.2⟩)
      | .once cb savedArgs ctx =>
        let s1 := unsubscribe s hid
        let result := cfg.cbs cb savedArgs
        let z := trackResult cfg s1 log.warnings hid result
        (z.1, ⟨log.invocations ++ [⟨hid, cb, ctx, savedArgs⟩], z.2⟩)

/-- Runs the handlers of a bus snapshot in order, threading the Publisher
state and the fan-out log. -/
def emitList (cfg : PubConfig) (args : List JsVal) :
    List Nat → PubState → FanLog → PubState × FanLog
  | [], s, log => (s, log)
  | h :: hs, s, log =>
    let z := runHandler cfg h args s log
    emitList cfg args hs z.1 z.2

/-- Modelled from the spec: `emitter.emit(eventType, args)` with synchronous,
in-order fan-out over the handlers registered at emission start (the bus
dispatch path works on a snapshot, so a handler removed mid-emission is still
delivered to and must rely on its `aborted` flag). -/
def emit (cfg : PubConfig) (s : PubState) (args : List JsVal) : PubState × FanLog :=
  emitList cfg args s.bus s ⟨[], 0⟩

/-- The stateful shell of `_handleDispatchPromises`: reads the record list,
clears the live list, and resolves the snapshot with the pure core. -/
def handleDispatch (s : PubState) : PubState × (Option Eventual × JsVal) :=
  let promises := s.dispatchPromises
  ({ s with dispatchPromises := [] }, handleDispatchPromises promises)

/-- Argument computation of `triggerSync` (lines 122-126): when `preEmit`
returned a defined value, an array-like ordered sequence is used as the
argument list as-is and any other value is wrapped by `[].concat`; an
undefined `preEmit` result leaves the original arguments unchanged. -/
def computeArgs (pre : JsVal) (orig : List JsVal) : List JsVal :=
  if isUndef pre then orig
  else if isArguments pre then argElems pre
  else jsConcat pre

/-- The observable effects of one `triggerSync` cycle: callback invocations,
warnings, and the eventual child-publisher triggering produced by the
resolution step. -/
structure CycleLog where
  invocations : List Invocation
  warnings : Nat
  trigger : Option Eventual

/-- `triggerSync(...orig)`: runs `preEmit`, computes the possibly transformed
argument list, and evaluates `shouldEmit` on it; when the gate passes, clears
`_dispatchPromises`, emits synchronously, and runs `_handleDispatchPromises`
on the records collected during fan-out; when the gate fails, nothing else
happens. -/
def triggerSync (cfg : PubConfig) (s : PubState) (orig : List JsVal) :
    PubState × CycleLog :=
  let preResult := cfg.preEmit orig
  let args := computeArgs preResult orig
  if cfg.shouldEmit args then
    let s1 := { s with dispatchPromises := [] }
    let z := emit cfg s1 args
    let w := handleDispatch z.1
    (w.1, ⟨z.2.invocations, z.2.warnings, w.2.1⟩)
  else
    (s, ⟨[], 0, none⟩)

/-- True exactly on promises that settle successfully. -/
def isFulfilled : JsVal → Bool
  | .promise _ true _ => true
  | _ => false

/-- True exactly on promises that settle with a failure. -/
def isRejected : JsVal → Bool
  | .promise _ false _ => true
  | _ => false

/-- Subscription `hid` has its `aborted` closure flag set in state `s`: its
unsubscribe function has run. -/
def abortedIn (s : PubState) (hid : Nat) : Prop :=
  ∀ sub ∈ s.subs, sub.hid = hid → sub.aborted = true

/-- `maxTime` on an empty list. -/
theorem maxTime_nil : maxTime [] = 0 := rfl

/-- `maxTime` unfolding on a cons cell. -/
theorem maxTime_cons (p : JsVal) (ps : List JsVal) :
    maxTime (p :: ps) = max (promTime p) (maxTime ps) := rfl

/-- Every member settles no later than `maxTime`. -/
theorem promTime_le_maxTime {p : JsVal} {ps : List JsVal} (h : p ∈ ps) :
    promTime p ≤ maxTime ps := by
  induction ps with
  | nil => simp at h
  | cons q qs ih =>
    rcases List.mem_cons.mp h with rfl | h2
    · rw [maxTime_cons]; exact le_max_left _ _
    · exact le_trans (ih h2) (by rw [maxTime_cons]; exact le_max_right _ _)

/-- Mapping the fulfillment value leaves the settlement time unchanged. -/
theorem promTime_thenLV (L : Nat) (p : JsVal) : promTime (thenLV L p) = promTime p := by
  cases p <;> try rfl
  rename_i t ok v
  cases ok <;> rfl

/-- C1: an emission cycle whose dispatch-record list holds exactly one record
whose promise fulfills with `V` triggers the "completed" child with exactly
`V`, unwrapped: the promise is handed to `resolve` directly, with no
`\x7blistener, value\x7d` mapping and no aggregate. -/
theorem single_record_resolves_unwrapped (t : Nat) (V : JsVal) (L : Nat) :
    (handleDispatchPromises [⟨.promise t true V, L⟩]).1 =
      some ⟨t, .completed V⟩ := rfl

/-- C3: an emission cycle whose sole dispatch record has a promise rejecting
with `E` triggers the "failed" child with `E` through the failure
continuation `resolve` attaches; the total equation shows the rejection is
consumed, never rethrown. -/
theorem single_record_failure_routed (t : Nat) (E : JsVal) (L : Nat) :
    (handleDispatchPromises [⟨.promise t false E, L⟩]).1 =
      some ⟨t, .failed E⟩ := rfl

/-- C9: `resolve` is total on every input (it never throws): a value not
classified as a promise is forwarded synchronously to the "completed" child
and undefined is returned, while a promise gets success and failure
continuations attached and the continuation chain is returned to the
caller. -/
theorem resolve_never_throws (v : JsVal) :
    (isPromise v = false → resolve v = (⟨0, .completed v⟩, .undef)) ∧
    (∀ t x, v = .promise t true x →
      resolve v = (⟨t, .completed x⟩, .promise t true .undef)) ∧
    (∀ t e, v = .promise t false e →
      resolve v = (⟨t, .failed e⟩, .promise t true .undef)) := by
  refine ⟨?_, ?_, ?_⟩
  · intro h
    cases v <;> first | rfl | simp [isPromise] at h
  · intro t x h; subst h; rfl
  · intro t e h; subst h; rfl

/-- Witness for C9 at three concrete inputs. -/
theorem resolve_never_throws_witness :
    resolve (.num 5) = (⟨0, .completed (.num 5)⟩, .undef) ∧
    resolve (.promise 2 true (.num 7)) =
      (⟨2, .completed (.num 7)⟩, .promise 2 true .undef) ∧
    resolve (.promise 3 false (.str "boom")) =
      (⟨3, .failed (.str "boom")⟩, .promise 3 true .undef) :=
  ⟨(resolve_never_throws (.num 5)).1 rfl,
   (resolve_never_throws (.promise 2 true (.num 7))).2.1 2 (.num 7) rfl,
   (resolve_never_throws (.promise 3 false (.str "boom"))).2.2 3 (.str "boom") rfl⟩

/-- C8: in `triggerSync`, an undefined `preEmit` result leaves the original
arguments unchanged; a defined array-like result is used as the argument list
as-is; any other defined result is wrapped into a one-element list; and both
the `shouldEmit` gate and the fan-out of the cycle see exactly the computed
list. -/
theorem preEmit_transform_shapes (pre : JsVal) (orig : List JsVal) :
    (pre = .undef → computeArgs pre orig = orig) ∧
    (∀ xs, pre = .arr xs → computeArgs pre orig = xs) ∧
    (pre ≠ .undef → isArguments pre = false → computeArgs pre orig = [pre]) ∧
    (∀ (cfg : PubConfig) (s : PubState), cfg.preEmit orig = pre →
      (cfg.shouldEmit (computeArgs pre orig) = false →
        triggerSync cfg s orig = (s, ⟨[], 0, none⟩)) ∧
      (cfg.shouldEmit (computeArgs pre orig) = true →
        (triggerSync cfg s orig).2.invocations =
          (emit cfg { s with dispatchPromises := [] }
            (computeArgs pre orig)).2.invocations)) := by
  refine ⟨?_, ?_, ?_, ?_⟩
  · intro h; subst h; rfl
  · intro xs h; subst h; rfl
  · intro h1 h2
    cases pre <;> simp_all [computeArgs, isUndef, isArguments, jsConcat]
  · intro cfg s h
    constructor
    · intro hgate; simp [triggerSync, h, hgate]
    · intro hgate; simp [triggerSync, h, hgate, handleDispatch]

/-- Witness for C8 at concrete transform results and a concrete suppressed
cycle. -/
theorem preEmit_transform_shapes_witness :
    computeArgs .undef [.num 9] = [.num 9] ∧
    computeArgs (.arr [.num 1, .num 2]) [.num 9] = [.num 1, .num 2] ∧
    computeArgs (.num 7) [.num 9] = [.num 7] ∧
    triggerSync ⟨fun _ => .num 7, fun _ => false, true, fun _ _ => .undef⟩
      initState [.num 9] = (initState, ⟨[], 0, none⟩) :=
  ⟨(preEmit_transform_shapes .undef [.num 9]).1 rfl,
   (preEmit_transform_shapes (.arr [.num 1, .num 2]) [.num 9]).2.1
     [.num 1, .num 2] rfl,
   (preEmit_transform_shapes (.num 7) [.num 9]).2.2.1 (by simp) rfl,
   ((preEmit_transform_shapes (.num 7) [.num 9]).2.2.2
     ⟨fun _ => .num 7, fun _ => false, true, fun _ _ => .undef⟩
     initState rfl).1 rfl⟩

/-- C4: when `shouldEmit`, evaluated on the possibly transformed arguments,
returns false, `triggerSync` invokes no listener, creates no dispatch record,
runs no resolution, triggers neither child publisher, and leaves the state
untouched, so an empty dispatch-record list stays empty. -/
theorem shouldEmit_false_suppresses (cfg : PubConfig) (s : PubState)
    (orig : List JsVal)
    (h : cfg.shouldEmit (computeArgs (cfg.preEmit orig) orig) = false) :
    triggerSync cfg s orig = (s, ⟨[], 0, none⟩) ∧
    (s.dispatchPromises = [] →
      (triggerSync cfg s orig).1.dispatchPromises = []) := by
  have e : triggerSync cfg s orig = (s, ⟨[], 0, none⟩) := by
    simp [triggerSync, h]
  exact ⟨e, fun he => by rw [e]; exact he⟩

/-- Witness for C4 with an always-false gate. -/
theorem shouldEmit_false_suppresses_witness :
    triggerSync ⟨fun _ => .undef, fun _ => false, true, fun _ _ => .undef⟩
      initState [.num 1] = (initState, ⟨[], 0, none⟩) :=
  (shouldEmit_false_suppresses
    ⟨fun _ => .undef, fun _ => false, true, fun _ _ => .undef⟩
    initState [.num 1] rfl).1

/-- C5: an emitting cycle starts from a cleared dispatch-record list (the
pre-cycle content is irrelevant) and ends with an empty one, a suppressed
cycle leaves the state untouched, and the resolution step swaps the list out
read-then-clear: its outcome is the pure function of the snapshot it read,
computed while the live list is already empty, so no record survives its
cycle and a re-entrantly started cycle cannot corrupt a prior snapshot. -/
theorem dispatch_records_never_survive (cfg : PubConfig) (s : PubState)
    (orig : List JsVal) :
    ((triggerSync cfg s orig).1.dispatchPromises = [] ∨
      triggerSync cfg s orig = (s, ⟨[], 0, none⟩)) ∧
    (cfg.shouldEmit (computeArgs (cfg.preEmit orig) orig) = true →
      triggerSync cfg s orig =
        triggerSync cfg { s with dispatchPromises := [] } orig) ∧
    (handleDispatch s).1.dispatchPromises = [] ∧
    (handleDispatch s).2 = handleDispatchPromises s.dispatchPromises := by
  refine ⟨?_, ?_, rfl, rfl⟩
  · by_cases h : cfg.shouldEmit (computeArgs (cfg.preEmit orig) orig)
    · left; simp [triggerSync, h, handleDispatch]
    · right; simp [triggerSync, h]
  · intro h; simp [triggerSync, h]

/-- Witness for C5: a cycle started on a dirty list behaves as if started on
a cleared one and ends empty. -/
theorem dispatch_records_never_survive_witness :
    ((triggerSync ⟨fun _ => .undef, fun _ => true, true, fun _ _ => .undef⟩
        ⟨[⟨.num 0, 3⟩], [], [], 0⟩ []).1.dispatchPromises = [] ∨
      triggerSync ⟨fun _ => .undef, fun _ => true, true, fun _ _ => .undef⟩
        ⟨[⟨.num 0, 3⟩], [], [], 0⟩ [] =
        (⟨[⟨.num 0, 3⟩], [], [], 0⟩, ⟨[], 0, none⟩)) ∧
    triggerSync ⟨fun _ => .undef, fun _ => true, true, fun _ _ => .undef⟩
      ⟨[⟨.num 0, 3⟩], [], [], 0⟩ [] =
      triggerSync ⟨fun _ => .undef, fun _ => true, true, fun _ _ => .undef⟩
        ⟨[], [], [], 0⟩ [] :=
  ⟨(dispatch_records_never_survive
      ⟨fun _ => .undef, fun _ => true, true, fun _ _ => .undef⟩
      ⟨[⟨.num 0, 3⟩], [], [], 0⟩ []).1,
   (dispatch_records_never_survive
      ⟨fun _ => .undef, fun _ => true, true, fun _ _ => .undef⟩
      ⟨[⟨.num 0, 3⟩], [], [], 0⟩ []).2.1 rfl⟩

/-- C10: a fan-out invocation whose callback result is not classified as a
promise creates no dispatch record, emits no warning, and never consults the
`canHandlePromise` capability: the handler outcome is literally the same for
both values of the flag, with the result discarded silently. -/
theorem nonpromise_result_discarded (cfg : PubConfig) (s : PubState)
    (log : FanLog) (hid cb : Nat) (args : List JsVal)
    (hfind : findSub s.subs hid = some ⟨hid, false, .plain cb⟩)
    (hres : isPromise (cfg.cbs cb args) = false) :
    ∀ b : Bool,
      runHandler { cfg with canHandlePromise := b } hid args s log =
        (s, ⟨log.invocations ++ [⟨hid, cb, .pubRef, args⟩], log.warnings⟩) := by
  intro b
  simp [runHandler, hfind, trackResult, hres]

/-- Witness for C10: the same concrete invocation under both capability
values. -/
theorem nonpromise_result_discarded_witness :
    runHandler ⟨fun _ => .undef, fun _ => true, true, fun _ _ => .num 3⟩ 0
      [.num 8] ⟨[], [⟨0, false, .plain 4⟩], [0], 1⟩ ⟨[], 0⟩ =
      (⟨[], [⟨0, false, .plain 4⟩], [0], 1⟩,
        ⟨[⟨0, 4, .pubRef, [.num 8]⟩], 0⟩) ∧
    runHandler ⟨fun _ => .undef, fun _ => true, false, fun _ _ => .num 3⟩ 0
      [.num 8] ⟨[], [⟨0, false, .plain 4⟩], [0], 1⟩ ⟨[], 0⟩ =
      (⟨[], [⟨0, false, .plain 4⟩], [0], 1⟩,
        ⟨[⟨0, 4, .pubRef, [.num 8]⟩], 0⟩) :=
  ⟨nonpromise_result_discarded
      ⟨fun _ => .undef, fun _ => true, true, fun _ _ => .num 3⟩
      ⟨[], [⟨0, false, .plain 4⟩], [0], 1⟩ ⟨[], 0⟩ 0 4 [.num 8] rfl rfl true,
   nonpromise_result_discarded
      ⟨fun _ => .undef, fun _ => true, false, fun _ _ => .num 3⟩
      ⟨[], [⟨0, false, .plain 4⟩], [0], 1⟩ ⟨[], 0⟩ 0 4 [.num 8] rfl rfl false⟩

/-- C6: evaluation of the `listenOnce` path at a concrete event.  The once
wrapper is an arrow function, so the `arguments` object it slices is that of
the enclosing `listenOnce` call: the inner callback receives the registration
arguments `[fn 9]` rather than the event arguments `[num 42]` (first
conjunct, with the second conjunct separating the two argument lists), while
unsubscription still happens before delegation, so a second cycle invokes
nothing (third conjunct). -/
theorem listenOnce_delivers_registration_arguments :
    (triggerSync ⟨fun _ => .undef, fun _ => true, true, fun _ _ => .undef⟩
        (listenOnce initState 9 none).1 [.num 42]).2.invocations =
      [⟨0, 9, .pubRef, [.fn 9]⟩] ∧
    [(⟨0, 9, .pubRef, [.fn 9]⟩ : Invocation)] ≠
      [(⟨0, 9, .pubRef, [.num 42]⟩ : Invocation)] ∧
    (triggerSync ⟨fun _ => .undef, fun _ => true, true, fun _ _ => .undef⟩
        (triggerSync ⟨fun _ => .undef, fun _ => true, true, fun _ _ => .undef⟩
          (listenOnce initState 9 none).1 [.num 42]).1
        [.num 43]).2.invocations = [] := by
  refine ⟨rfl, ?_, rfl⟩
  simp

/-- A state whose subscriptions agree inherits every aborted flag. -/
theorem abortedIn_of_subs_eq {s1 s2 : PubState} {hid : Nat}
    (h : s2.subs = s1.subs) (ha : abortedIn s1 hid) : abortedIn s2 hid :=
  fun sub hm he => ha sub (h ▸ hm) he

/-- Unsubscribing any handler preserves every already-set aborted flag. -/
theorem abortedIn_unsubscribe {s : PubState} {hid : Nat} (h : abortedIn s hid)
    (hid2 : Nat) : abortedIn (unsubscribe s hid2) hid := by
  intro sub hmem heq
  simp only [unsubscribe, List.mem_map] at hmem
  obtain ⟨a, ha, rfl⟩ := hmem
  by_cases hx : a.hid = hid2
  · simp [hx]
  · simp only [hx, if_false] at heq ⊢
    exact h a ha heq

/-- Promise tracking never touches the subscription list. -/
theorem trackResult_subs (cfg : PubConfig) (s : PubState) (w : Nat) (l : Nat)
    (r : JsVal) : (trackResult cfg s w l r).1.subs = s.subs := by
  unfold trackResult
  by_cases h1 : isPromise r
  · by_cases h2 : cfg.canHandlePromise <;> simp [h1, h2]
  · simp [h1]

/-- Running one handler preserves every already-set aborted flag: during
fan-out the only subscription mutation is the self-unsubscription of a once
wrapper, which only sets flags. -/
theorem abortedIn_runHandler {s : PubState} {hid : Nat} (h : abortedIn s hid)
    (cfg : PubConfig) (hd : Nat) (args : List JsVal) (log : FanLog) :
    abortedIn (runHandler cfg hd args s log).1 hid := by
  unfold runHandler
  cases hfind : findSub s.subs hd with
  | none => exact h
  | some sub =>
    obtain ⟨shd, sab, skind⟩ := sub
    cases sab with
    | true => exact h
    | false =>
      cases skind with
      | plain cb =>
        exact abortedIn_of_subs_eq
          (trackResult_subs cfg s log.warnings cb (cfg.cbs cb args)) h
      | once cb savedArgs ctx =>
        exact abortedIn_of_subs_eq
          (trackResult_subs cfg (unsubscribe s hd) log.warnings hd
            (cfg.cbs cb savedArgs))
          (abortedIn_unsubscribe h hd)

/-- Running one handler only ever appends invocations attributed to that
handler identity. -/
theorem runHandler_invocations_append (cfg : PubConfig) (hd : Nat)
    (args : List JsVal) (s : PubState) (log : FanLog) :
    ∃ tail, (runHandler cfg hd args s log).2.invocations =
        log.invocations ++ tail ∧ ∀ inv ∈ tail, inv.hid = hd := by
  unfold runHandler
  cases hfind : findSub s.subs hd with
  | none => exact ⟨[], (List.append_nil _).symm, by simp⟩
  | some sub =>
    obtain ⟨shd, sab, skind⟩ := sub
    cases sab with
    | true => exact ⟨[], (List.append_nil _).symm, by simp⟩
    | false =>
      cases skind with
      | plain cb =>
        refine ⟨[⟨hd, cb, .pubRef, args⟩], rfl, ?_⟩
        intro inv hm
        rw [List.mem_singleton] at hm
        subst hm; rfl
      | once cb savedArgs ctx =>
        refine ⟨[⟨hd, cb, ctx, savedArgs⟩], rfl, ?_⟩
        intro inv hm
        rw [List.mem_singleton] at hm
        subst hm; rfl

/-- A handler whose aborted flag is already set is skipped entirely, even
when the bus dispatch path still delivers to it. -/
theorem runHandler_aborted_skip {s : PubState} {hid : Nat}
    (h : abortedIn s hid) (cfg : PubConfig) (args : List JsVal)
    (log : FanLog) : runHandler cfg hid args s log = (s, log) := by
  unfold runHandler
  cases hfind : findSub s.subs hid with
  | none => rfl
  | some sub =>
    have hfind2 : List.find? (fun sub2 => decide (sub2.hid = hid)) s.subs =
        some sub := hfind
    have hmem : sub ∈ s.subs := List.mem_of_find?_eq_some hfind2
    have hp0 := List.find?_some hfind2
    have hp : sub.hid = hid := of_decide_eq_true hp0
    have hab : sub.aborted = true := h sub hmem hp
    obtain ⟨shd, sab, skind⟩ := sub
    cases sab with
    | true => rfl
    | false => exact absurd hab (by simp)

/-- Over any bus snapshot, a subscription whose aborted flag was set before
the fan-out contributes no invocation, and its flag stays set throughout. -/
theorem emitList_aborted_not_invoked (cfg : PubConfig) (args : List JsVal)
    (hid : Nat) :
    ∀ (hs : List Nat) (s : PubState) (log : FanLog), abortedIn s hid →
      (∀ inv ∈ log.invocations, inv.hid ≠ hid) →
      (∀ inv ∈ (emitList cfg args hs s log).2.invocations, inv.hid ≠ hid) ∧
      abortedIn (emitList cfg args hs s log).1 hid := by
  intro hs
  induction hs with
  | nil => exact fun s log ha hl => ⟨hl, ha⟩
  | cons hd rest ih =>
    intro s log ha hl
    by_cases hx : hd = hid
    · subst hx
      have hrw := runHandler_aborted_skip ha cfg args log
      show (∀ inv ∈ (emitList cfg args rest (runHandler cfg hd args s log).1
          (runHandler cfg hd args s log).2).2.invocations, inv.hid ≠ hd) ∧
        abortedIn (emitList cfg args rest (runHandler cfg hd args s log).1
          (runHandler cfg hd args s log).2).1 hd
      rw [hrw]
      exact ih s log ha hl
    · obtain ⟨tail, heq, htail⟩ :=
        runHandler_invocations_append cfg hd args s log
      have hl2 : ∀ inv ∈ (runHandler cfg hd args s log).2.invocations,
          inv.hid ≠ hid := by
        intro inv hm
        rw [heq] at hm
        rcases List.mem_append.mp hm with h1 | h2
        · exact hl inv h1
        · rw [htail inv h2]; exact hx
      exact ih (runHandler cfg hd args s log).1
        (runHandler cfg hd args s log).2
        (abortedIn_runHandler ha cfg hd args log) hl2

/-- C7: after the unsubscribe function of a subscription has run (its aborted
flag is set), no fan-out ever invokes its callback again — the first part
quantifies over arbitrary bus snapshots, covering deliveries already queued
on the dispatch path that have not yet reached the aborted check — and in
particular a listener unsubscribed before a cycle begins is not invoked
during that cycle. -/
theorem unsubscribed_never_invoked (cfg : PubConfig) (hid : Nat) :
    (∀ (snapshot : List Nat) (s : PubState) (args : List JsVal),
      abortedIn s hid →
      ∀ inv ∈ (emitList cfg args snapshot s ⟨[], 0⟩).2.invocations,
        inv.hid ≠ hid) ∧
    (∀ (s : PubState) (orig : List JsVal), abortedIn s hid →
      ∀ inv ∈ (triggerSync cfg s orig).2.invocations, inv.hid ≠ hid) := by
  constructor
  · intro snapshot s args ha
    exact (emitList_aborted_not_invoked cfg args hid snapshot s ⟨[], 0⟩ ha
      (by simp)).1
  · intro s orig ha inv hmem
    by_cases h : cfg.shouldEmit (computeArgs (cfg.preEmit orig) orig)
    · have heq : (triggerSync cfg s orig).2.invocations =
          (emit cfg { s with dispatchPromises := [] }
            (computeArgs (cfg.preEmit orig) orig)).2.invocations := by
        simp [triggerSync, h, handleDispatch]
      rw [heq] at hmem
      have ha2 : abortedIn
          { s with dispatchPromises := ([] : List DispatchRecord) } hid :=
        fun sub hm he => ha sub hm he
      exact (emitList_aborted_not_invoked cfg
        (computeArgs (cfg.preEmit orig) orig) hid
        ({ s with dispatchPromises := ([] : List DispatchRecord) } :
          PubState).bus _ ⟨[], 0⟩ ha2 (by simp)).1 inv hmem
    · simp [triggerSync, h] at hmem

/-- Witness for C7: a snapshot still containing the aborted subscription 0
delivers only to the live subscription 1. -/
theorem unsubscribed_never_invoked_witness :
    abortedIn ⟨[], [⟨0, true, .plain 5⟩, ⟨1, false, .plain 7⟩], [1], 2⟩ 0 ∧
    (⟨1, 7, .pubRef, [.num 1]⟩ : Invocation).hid ≠ 0 := by
  have ha : abortedIn
      ⟨[], [⟨0, true, .plain 5⟩, ⟨1, false, .plain 7⟩], [1], 2⟩ 0 := by
    intro sub hm he
    simp only [List.mem_cons, List.not_mem_nil, or_false] at hm
    rcases hm with rfl | rfl
    · rfl
    · exact absurd he (by decide)
  refine ⟨ha, ?_⟩
  apply (unsubscribed_never_invoked
    ⟨fun _ => .undef, fun _ => true, true, fun _ _ => .undef⟩ 0).1
    [0, 1] ⟨[], [⟨0, true, .plain 5⟩, ⟨1, false, .plain 7⟩], [1], 2⟩
    [.num 1] ha
  have hev : (emitList ⟨fun _ => .undef, fun _ => true, true, fun _ _ => .undef⟩
      [.num 1] [0, 1] ⟨[], [⟨0, true, .plain 5⟩, ⟨1, false, .plain 7⟩], [1], 2⟩
      ⟨[], 0⟩).2.invocations = [⟨1, 7, .pubRef, [.num 1]⟩] := rfl
  rw [hev]
  exact List.mem_singleton.mpr rfl

/-- Mapping the fulfillment value preserves the settlement polarity. -/
theorem isFulfilled_thenLV (L : Nat) (p : JsVal) :
    isFulfilled (thenLV L p) = isFulfilled p := by
  cases p
  case promise t ok v => cases ok <;> rfl
  all_goals rfl

/-- A fulfilled value is a fulfilled promise. -/
theorem fulfilled_shape {p : JsVal} (h : isFulfilled p = true) :
    ∃ t v, p = .promise t true v := by
  cases p
  case promise t ok v =>
    cases ok
    case true => exact ⟨t, v, rfl⟩
    case false => exact absurd h (by simp [isFulfilled])
  all_goals exact absurd h (by simp [isFulfilled])

/-- Only a rejection maps to a rejection under the fulfillment mapping. -/
theorem thenLV_rejected {L : Nat} {p : JsVal} {t : Nat} {e : JsVal}
    (h : thenLV L p = .promise t false e) : p = .promise t false e := by
  cases p
  case promise t3 ok3 v3 =>
    cases ok3
    case false => exact h
    case true => exact absurd h (by simp [thenLV])
  all_goals exact absurd h (by simp [thenLV])

/-- Two pointwise time-equal maps have the same joint settlement time. -/
theorem maxTime_map_eq {α : Type} (f g : α → JsVal) (l : List α)
    (h : ∀ a ∈ l, promTime (f a) = promTime (g a)) :
    maxTime (l.map f) = maxTime (l.map g) := by
  induction l with
  | nil => rfl
  | cons x xs ih =>
    simp only [List.map_cons, maxTime_cons]
    rw [h x (List.mem_cons_self x xs),
      ih (fun a ha => h a (List.mem_cons_of_mem _ ha))]

/-- A list of fulfilled promises carries no first rejection. -/
theorem firstRej_none_of_fulfilled {ps : List JsVal}
    (h : ∀ p ∈ ps, isFulfilled p = true) : firstRej ps = none := by
  induction ps with
  | nil => rfl
  | cons q qs ih =>
    have hq := h q (List.mem_cons_self q qs)
    have ihq := ih (fun p hp => h p (List.mem_cons_of_mem _ hp))
    cases q
    case promise t3 ok3 v3 =>
      cases ok3
      case true => exact ihq
      case false => exact absurd hq (by simp [isFulfilled])
    all_goals exact ihq

/-- Injectivity of a `some`-wrapped time/reason pair. -/
theorem some_pair_inj {t3 t : Nat} {v3 e : JsVal}
    (h : (some (t3, v3) : Option (Nat × JsVal)) = some (t, e)) :
    t3 = t ∧ v3 = e := by
  injection h with h1
  injection h1 with h2 h3
  exact ⟨h2, h3⟩

/-- The combination step never discards a rejection. -/
theorem firstRejStep_ne_none (t : Nat) (e : JsVal)
    (r : Option (Nat × JsVal)) : firstRejStep t e r ≠ none := by
  cases r with
  | none => simp [firstRejStep]
  | some pr =>
    obtain ⟨t4, e4⟩ := pr
    by_cases hlt : t4 < t <;> simp [firstRejStep, hlt]

/-- A list containing a rejection has a first rejection. -/
theorem firstRej_ne_none_of_rejected {ps : List JsVal} {t2 : Nat} {e2 : JsVal}
    (h : (JsVal.promise t2 false e2) ∈ ps) : firstRej ps ≠ none := by
  induction ps with
  | nil => simp at h
  | cons q qs ih =>
    cases q
    case promise t3 ok3 v3 =>
      cases ok3
      case false => exact firstRejStep_ne_none t3 v3 (firstRej qs)
      case true =>
        have hm : (JsVal.promise t2 false e2) ∈ qs := by
          rcases List.mem_cons.mp h with heq | hm2
          · exact absurd heq (by simp)
          · exact hm2
        exact ih hm
    all_goals
      have hm : (JsVal.promise t2 false e2) ∈ qs := by
        rcases List.mem_cons.mp h with heq | hm2
        · exact absurd heq (by simp)
        · exact hm2
      exact ih hm

/-- The first rejection belongs to the list and settles no later than any
other rejection in it. -/
theorem firstRej_spec {ps : List JsVal} {t : Nat} {e : JsVal}
    (h : firstRej ps = some (t, e)) :
    (JsVal.promise t false e) ∈ ps ∧
      ∀ t2 e2, (JsVal.promise t2 false e2) ∈ ps → t ≤ t2 := by
  induction ps generalizing t e with
  | nil => exact Option.noConfusion h
  | cons q qs ih =>
    cases q
    case promise t3 ok3 v3 =>
      cases ok3
      case false =>
        have h2 : firstRejStep t3 v3 (firstRej qs) = some (t, e) := h
        cases hr : firstRej qs with
        | none =>
          rw [hr] at h2
          have h3 : (some (t3, v3) : Option (Nat × JsVal)) = some (t, e) := h2
          obtain ⟨rfl, rfl⟩ := some_pair_inj h3
          refine ⟨List.mem_cons_self _ _, ?_⟩
          intro t2 e2 hm
          rcases List.mem_cons.mp hm with heq | hm2
          · injection heq with ht _ _
            rw [ht]
          · exact absurd hr (firstRej_ne_none_of_rejected hm2)
        | some pr =>
          obtain ⟨t4, e4⟩ := pr
          rw [hr] at h2
          have h3 : (if t4 < t3 then some (t4, e4) else some (t3, v3)) =
              some (t, e) := h2
          by_cases hlt : t4 < t3
          · rw [if_pos hlt] at h3
            obtain ⟨rfl, rfl⟩ := some_pair_inj h3
            obtain ⟨hmem, hmin⟩ := ih hr
            refine ⟨List.mem_cons_of_mem _ hmem, ?_⟩
            intro t2 e2 hm
            rcases List.mem_cons.mp hm with heq | hm2
            · injection heq with ht _ _
              rw [ht]
              exact le_of_lt hlt
            · exact hmin t2 e2 hm2
          · rw [if_neg hlt] at h3
            obtain ⟨rfl, rfl⟩ := some_pair_inj h3
            obtain ⟨hmem, hmin⟩ := ih hr
            refine ⟨List.mem_cons_self _ _, ?_⟩
            intro t2 e2 hm
            rcases List.mem_cons.mp hm with heq | hm2
            · injection heq with ht _ _
              rw [ht]
            · exact le_trans (Nat.le_of_not_lt hlt) (hmin t2 e2 hm2)
      case true =>
        have h2 : firstRej qs = some (t, e) := h
        obtain ⟨hmem, hmin⟩ := ih h2
        refine ⟨List.mem_cons_of_mem _ hmem, ?_⟩
        intro t2 e2 hm
        rcases List.mem_cons.mp hm with heq | hm2
        · exact absurd heq (by simp)
        · exact hmin t2 e2 hm2
    all_goals
      have h2 : firstRej qs = some (t, e) := h
      obtain ⟨hmem, hmin⟩ := ih h2
      refine ⟨List.mem_cons_of_mem _ hmem, ?_⟩
      intro t2 e2 hm
      rcases List.mem_cons.mp hm with heq | hm2
      · exact absurd heq (by simp)
      · exact hmin t2 e2 hm2

/-- C2: with two or more dispatch records, each promise is mapped on
settlement into a `\x7blistener, value\x7d` object and the mapped promises
are joined into one aggregate.  When every record fulfills, the "completed"
child is triggered once with the ordered sequence of all `\x7blistener,
value\x7d` entries in record order, at the joint settlement time, which no
individual settlement exceeds; when the aggregate rejects, it does so with
the first individual rejection, which fails it. -/
theorem multi_record_aggregation (rs : List DispatchRecord)
    (h2 : 2 ≤ rs.length) :
    ((∀ r ∈ rs, isFulfilled r.promise = true) →
      (handleDispatchPromises rs).1 =
        some ⟨maxTime (rs.map fun r => r.promise),
          .completed (.arr (rs.map fun r =>
            .lv r.listener (promVal r.promise)))⟩ ∧
      ∀ r ∈ rs, promTime r.promise ≤ maxTime (rs.map fun r => r.promise)) ∧
    (∀ t e,
      firstRej (rs.map fun r => thenLV r.listener r.promise) = some (t, e) →
      (handleDispatchPromises rs).1 = some ⟨t, .failed e⟩ ∧
      (∃ r ∈ rs, r.promise = .promise t false e) ∧
      ∀ r ∈ rs, ∀ t2 e2, r.promise = .promise t2 false e2 → t ≤ t2) := by
  obtain ⟨a, b, rest, rfl⟩ : ∃ a b rest, rs = a :: b :: rest := by
    cases rs with
    | nil =>
      simp only [List.length_nil] at h2
      omega
    | cons a rs2 =>
      cases rs2 with
      | nil =>
        simp only [List.length_cons, List.length_nil] at h2
        omega
      | cons b rest => exact ⟨a, b, rest, rfl⟩
  constructor
  · intro hok
    have hmapfl : ∀ p ∈ (a :: b :: rest).map
        (fun r => thenLV r.listener r.promise), isFulfilled p = true := by
      intro p hp
      obtain ⟨r, hr, rfl⟩ := List.mem_map.mp hp
      rw [isFulfilled_thenLV]
      exact hok r hr
    have hrn : firstRej ((a :: b :: rest).map
        (fun r => thenLV r.listener r.promise)) = none :=
      firstRej_none_of_fulfilled hmapfl
    have hpa : promiseAll ((a :: b :: rest).map
        (fun r => thenLV r.listener r.promise)) =
        .promise (maxTime ((a :: b :: rest).map
          (fun r => thenLV r.listener r.promise))) true
          (.arr (((a :: b :: rest).map
            (fun r => thenLV r.listener r.promise)).map promVal)) := by
      unfold promiseAll
      rw [hrn]
    have hmax : maxTime ((a :: b :: rest).map
        (fun r => thenLV r.listener r.promise)) =
        maxTime ((a :: b :: rest).map fun r => r.promise) :=
      maxTime_map_eq _ _ _ (fun r _ => promTime_thenLV r.listener r.promise)
    have hvals : ((a :: b :: rest).map
        (fun r => thenLV r.listener r.promise)).map promVal =
        (a :: b :: rest).map fun r => .lv r.listener (promVal r.promise) := by
      rw [List.map_map]
      apply List.map_congr_left
      intro r hr
      obtain ⟨t, v, hshape⟩ := fulfilled_shape (hok r hr)
      simp only [Function.comp]
      rw [hshape]
      rfl
    refine ⟨?_, ?_⟩
    · show (some (resolve (promiseAll ((a :: b :: rest).map
        (fun r => thenLV r.listener r.promise)))).1 : Option Eventual) = _
      rw [hpa, hmax, hvals]
      rfl
    · intro r hr
      exact promTime_le_maxTime
        (List.mem_map_of_mem (fun r => r.promise) hr)
  · intro t e hfr
    have hpa : promiseAll ((a :: b :: rest).map
        (fun r => thenLV r.listener r.promise)) = .promise t false e := by
      unfold promiseAll
      rw [hfr]
    obtain ⟨hmem, hmin⟩ := firstRej_spec hfr
    refine ⟨?_, ?_, ?_⟩
    · show (some (resolve (promiseAll ((a :: b :: rest).map
        (fun r => thenLV r.listener r.promise)))).1 : Option Eventual) = _
      rw [hpa]
      rfl
    · obtain ⟨r, hr, hthen⟩ := List.mem_map.mp hmem
      exact ⟨r, hr, thenLV_rejected hthen⟩
    · intro r hr t2 e2 hre
      have hm2 : (JsVal.promise t2 false e2) ∈ (a :: b :: rest).map
          (fun r => thenLV r.listener r.promise) := by
        have hm0 : thenLV r.listener r.promise ∈ (a :: b :: rest).map
            (fun r => thenLV r.listener r.promise) :=
          List.mem_map_of_mem (fun r : DispatchRecord =>
            thenLV r.listener r.promise) hr
        rw [hre] at hm0
        exact hm0
      exact hmin t2 e2 hm2

/-- Witness for C2: two fulfilling records aggregate in record order at the
later settlement time; two rejecting records fail with the earlier
rejection. -/
theorem multi_record_aggregation_witness :
    (handleDispatchPromises
        [⟨.promise 1 true (.num 5), 7⟩, ⟨.promise 3 true (.num 6), 8⟩]).1 =
      some ⟨3, .completed (.arr [.lv 7 (.num 5), .lv 8 (.num 6)])⟩ ∧
    (handleDispatchPromises
        [⟨.promise 5 false (.str "E1"), 1⟩,
         ⟨.promise 2 false (.str "E2"), 2⟩]).1 =
      some ⟨2, .failed (.str "E2")⟩ := by
  constructor
  · exact ((multi_record_aggregation
      [⟨.promise 1 true (.num 5), 7⟩, ⟨.promise 3 true (.num 6), 8⟩]
      (by decide)).1 (by decide)).1
  · exact ((multi_record_aggregation
      [⟨.promise 5 false (.str "E1"), 1⟩, ⟨.promise 2 false (.str "E2"), 2⟩]
      (by decide)).2 2 (.str "E2") rfl).1

end Airflux
